import Mathlib

/-!
Verification of the NekoBot version-resolution module (`nekobot/__init__.py`).

The module resolves a version string at import time:
  1. query the installed-distribution metadata registry for `"NekoBot"`;
  2. on `PackageNotFoundError`, parse the local `pyproject.toml` with the
     regular expression `^version\s*=\s*[quote]([^quote]+)[quote]` in
     MULTILINE mode (first match wins), where `[quote]` is a single or
     double quote;
  3. default to `"0.0.0"` when the file is absent or nothing matches.

The embedding below models the manifest file content as a `List Char`
(`none` when the file does not exist), the metadata registry as a partial
map from distribution names to version strings, and the regular-expression
search as an anchored matcher `matchAt` tried at every line start from
left to right (`reSearch`), which is exactly the semantics of `re.search`
with a `^`-anchored pattern in MULTILINE mode.
-/

namespace NekoBot

/-- Characters accepted by the regex character class `[quote]`,
i.e. a single or a double quote. -/
def isQuote (c : Char) : Bool := c = '\'' || c = '"'

/-- The characters matched by the regex class `\s` in a `str` pattern
compiled without `re.ASCII`: Python's Unicode whitespace
(`Py_UNICODE_ISSPACE`, the same set as `str.isspace`), i.e. tab through
carriage return, the information separators U+001C through U+001F, space,
next line U+0085, no-break space U+00A0, ogham space mark U+1680, the
typographic spaces U+2000 through U+200A, the line and paragraph
separators U+2028 and U+2029, narrow no-break space U+202F, medium
mathematical space U+205F and ideographic space U+3000. -/
def pythonWhitespace : List Char :=
  ['\t', '\n', '\x0b', '\x0c', '\r', '\x1c', '\x1d', '\x1e', '\x1f', ' ',
   '\x85', '\xa0', '\u1680',
   '\u2000', '\u2001', '\u2002', '\u2003', '\u2004', '\u2005', '\u2006',
   '\u2007', '\u2008', '\u2009', '\u200a',
   '\u2028', '\u2029', '\u202f', '\u205f', '\u3000']

/-- The regex class `\s` as a predicate on characters. -/
def isPySpace (c : Char) : Bool := pythonWhitespace.contains c

/-- The literal `version` that anchors the pattern. -/
def versionLit : List Char := ['v', 'e', 'r', 's', 'i', 'o', 'n']

/-- Strip a literal sequence of characters from the head of a list. -/
def stripLit : List Char → List Char → Option (List Char)
  | [], cs => some cs
  | _ :: _, [] => none
  | p :: ps, c :: cs => if c = p then stripLit ps cs else none

/-- Attempt the pattern `version\s*=\s*[quote]([^quote]+)[quote]` anchored
at the head of `cs`; returns the captured group on success.  Greedy
`\s*` followed by a non-space literal, and greedy `([^quote]+)` followed
by a quote, are backtracking-free, so maximal-munch `dropWhile` /
`takeWhile` implement them exactly. -/
def matchAt (cs : List Char) : Option (List Char) :=
  match stripLit versionLit cs with
  | none => none
  | some r1 =>
    match r1.dropWhile isPySpace with
    | '=' :: r2 =>
      match r2.dropWhile isPySpace with
      | q :: r3 =>
        if isQuote q then
          match r3.dropWhile (fun c => !(isQuote c)) with
          | [] => none
          | _ :: _ =>
            if r3.takeWhile (fun c => !(isQuote c)) = [] then none
            else some (r3.takeWhile (fun c => !(isQuote c)))
        else none
      | [] => none
    | _ => none

/-- Scan for an anchored match at every position that follows a newline,
left to right. -/
def searchFromNewlines : List Char → Option (List Char)
  | [] => none
  | c :: cs =>
    if c = '\n' then
      match matchAt cs with
      | some g => some g
      | none => searchFromNewlines cs
    else searchFromNewlines cs

/-- `re.search` of the MULTILINE `^`-anchored pattern: try the start of the
text, then the position after each newline, left to right; return the
first captured group. -/
def reSearch (cs : List Char) : Option (List Char) :=
  match matchAt cs with
  | some g => some g
  | none => searchFromNewlines cs

/-- The suffixes of `cs` that start just after a newline, left to right. -/
def tailStarts : List Char → List (List Char)
  | [] => []
  | c :: cs => if c = '\n' then cs :: tailStarts cs else tailStarts cs

/-- All line-start suffixes of `cs`: the whole text, then the suffix after
each newline, left to right. -/
def lineStarts (cs : List Char) : List (List Char) := cs :: tailStarts cs

/-- `_read_version_from_pyproject`: `none` models the manifest file being
absent at the computed path, `some text` models its decoded content. -/
def readVersionFromPyproject (manifest : Option (List Char)) : String :=
  match manifest with
  | none => "0.0.0"
  | some text =>
    match reSearch text with
    | some g => String.mk g
    | none => "0.0.0"

/-- The host environment: the installed-distribution metadata registry
(a partial map from distribution names to version strings) and the content
of `pyproject.toml` at the computed path (`none` when the file is absent). -/
structure Env where
  registry : String → Option String
  manifest : Option (List Char)

/-- The only exception the metadata registry signals for a missing
distribution. -/
inductive PyError
  | packageNotFoundError
  deriving DecidableEq

/-- `importlib.metadata.version name`: the declared version string, or
`PackageNotFoundError` when the distribution is not installed. -/
def metadataVersion (env : Env) (name : String) : Except PyError String :=
  match env.registry name with
  | some v => Except.ok v
  | none => Except.error PyError.packageNotFoundError

/-- The module-initialization statement: `try: __version__ =
importlib_metadata.version("NekoBot") except PackageNotFoundError:
__version__ = _read_version_from_pyproject()`. -/
def moduleInit (env : Env) : Except PyError String :=
  match metadataVersion env "NekoBot" with
  | Except.ok v => Except.ok v
  | Except.error PyError.packageNotFoundError =>
      Except.ok (readVersionFromPyproject env.manifest)

/-- The resolved module attribute `__version__`. -/
def __version__ (env : Env) : String :=
  match env.registry "NekoBot" with
  | some v => v
  | none => readVersionFromPyproject env.manifest

/-- `get_version()`: returns the module attribute. -/
def get_version (env : Env) : String := __version__ env

/-- Filesystem operations, for the effect-trace instrumentation of the
resolver.  `writeText` never occurs in the resolver's trace; it is in the
vocabulary so that leaving the filesystem unchanged is a real statement. -/
inductive FsOp
  | isFileCheck
  | readText
  | writeText (content : List Char)
  deriving DecidableEq

/-- `_read_version_from_pyproject` instrumented with the filesystem
operations it performs: one `is_file()` check, then one `read_text()`
when the file exists. -/
def readVersionOps (manifest : Option (List Char)) : String × List FsOp :=
  match manifest with
  | none => ("0.0.0", [FsOp.isFileCheck])
  | some text =>
    (match reSearch text with
     | some g => String.mk g
     | none => "0.0.0",
     [FsOp.isFileCheck, FsOp.readText])

/-- The whole resolution instrumented with its filesystem operations:
the metadata-registry branch touches the filesystem not at all. -/
def resolveOps (env : Env) : String × List FsOp :=
  match env.registry "NekoBot" with
  | some v => (v, [])
  | none => readVersionOps env.manifest

/-- Effect of one filesystem operation on the manifest path's state. -/
def applyOp (fs : Option (List Char)) : FsOp → Option (List Char)
  | FsOp.isFileCheck => fs
  | FsOp.readText => fs
  | FsOp.writeText c => some c

/-- Effect of a trace of filesystem operations on the manifest path. -/
def applyOps (ops : List FsOp) (fs : Option (List Char)) : Option (List Char) :=
  ops.foldl applyOp fs

/-- Claim C1: for every combination of metadata registry and manifest
state (present or absent, well-formed or malformed), module
initialization completes without raising — it returns `Except.ok` of the
string that `get_version()` returns. -/
theorem init_never_raises (env : Env) :
    moduleInit env = Except.ok (get_version env) := by
  cases hr : env.registry "NekoBot" <;>
    simp [moduleInit, metadataVersion, get_version, __version__, hr]

/-- Claim C2: if the metadata registry reports a version string for the
distribution name `"NekoBot"`, `get_version()` returns exactly that
string, whatever the manifest state. -/
theorem metadata_priority (env : Env) (v : String)
    (hreg : env.registry "NekoBot" = some v) :
    get_version env = v := by
  simp [get_version, __version__, hreg]

/-- Witness for C2: registry maps `"NekoBot"` to `"9.9.9"` while the
manifest is present but malformed; the result is `"9.9.9"`. -/
theorem metadata_priority_witness :
    get_version
      ⟨fun s => if s = "NekoBot" then some "9.9.9" else none,
       some ('n' :: 'o' :: 't' :: ' ' :: 't' :: 'o' :: 'm' :: 'l' :: [])⟩
      = "9.9.9" :=
  metadata_priority _ "9.9.9" rfl

/-- Claim C7: the module attribute `__version__` and `get_version()` are
the identical string in every state. -/
theorem get_version_eq_attribute (env : Env) :
    get_version env = __version__ env := rfl

/-- Stripping a literal from a list that starts with it succeeds. -/
theorem stripLit_append (p cs : List Char) : stripLit p (p ++ cs) = some cs := by
  induction p with
  | nil => rfl
  | cons c p ih => simp [stripLit, ih]

/-- A quote character is not a whitespace character. -/
theorem quote_not_space {c : Char} (h : isQuote c = true) : isPySpace c = false := by
  simp only [isQuote, Bool.or_eq_true, decide_eq_true_eq] at h
  rcases h with rfl | rfl <;> decide

/-- The anchored matcher succeeds on a well-formed version line and
captures exactly the quoted value; the opening and closing quotes need
not agree. -/
theorem matchAt_found (ws1 ws2 v rest : List Char) (q1 q2 : Char)
    (hws1 : ∀ c ∈ ws1, isPySpace c = true) (hws2 : ∀ c ∈ ws2, isPySpace c = true)
    (hq1 : isQuote q1 = true) (hq2 : isQuote q2 = true)
    (hv : v ≠ []) (hvq : ∀ c ∈ v, isQuote c = false) :
    matchAt (versionLit ++ (ws1 ++ '=' :: (ws2 ++ q1 :: (v ++ q2 :: rest)))) = some v := by
  have heq : isPySpace '=' = false := by decide
  have h1 : (ws1 ++ '=' :: (ws2 ++ q1 :: (v ++ q2 :: rest))).dropWhile isPySpace
      = '=' :: (ws2 ++ q1 :: (v ++ q2 :: rest)) := by
    rw [List.dropWhile_append_of_pos hws1, List.dropWhile_cons, heq]
    simp
  have h2 : (ws2 ++ q1 :: (v ++ q2 :: rest)).dropWhile isPySpace
      = q1 :: (v ++ q2 :: rest) := by
    rw [List.dropWhile_append_of_pos hws2, List.dropWhile_cons, quote_not_space hq1]
    simp
  have hvq2 : ∀ c ∈ v, (!(isQuote c)) = true := by
    intro c hc; simp [hvq c hc]
  have h3 : (v ++ q2 :: rest).dropWhile (fun c => !(isQuote c)) = q2 :: rest := by
    rw [List.dropWhile_append_of_pos hvq2, List.dropWhile_cons]
    simp [hq2]
  have h4 : (v ++ q2 :: rest).takeWhile (fun c => !(isQuote c)) = v := by
    rw [List.takeWhile_append_of_pos hvq2, List.takeWhile_cons]
    simp [hq2]
  unfold matchAt
  simp only [stripLit_append, h1, h2, h3, h4]
  simp [hq1, hv]

/-- The newline scan is the first `matchAt` success over `tailStarts`. -/
theorem searchFromNewlines_eq (cs : List Char) :
    searchFromNewlines cs = (tailStarts cs).findSome? matchAt := by
  induction cs with
  | nil => rfl
  | cons c cs ih =>
    by_cases hc : c = '\n'
    · subst hc
      simp only [searchFromNewlines, tailStarts, eq_self_iff_true, if_true]
      cases hm : matchAt cs with
      | some g =>
        rw [List.findSome?_cons_of_isSome _ (by simp [hm]), hm]
      | none =>
        rw [List.findSome?_cons_of_isNone _ (by simp [hm])]
        exact ih
    · simp only [searchFromNewlines, tailStarts, if_neg hc]
      exact ih

/-- The whole search is the first `matchAt` success over all line-start
suffixes, left to right. -/
theorem reSearch_eq_findSome (cs : List Char) :
    reSearch cs = (lineStarts cs).findSome? matchAt := by
  simp only [reSearch, lineStarts, List.findSome?_cons]
  cases matchAt cs <;> simp [searchFromNewlines_eq]

/-- Whatever the matcher captures is a nonempty run of non-quote
characters. -/
theorem matchAt_sound {cs g : List Char} (h : matchAt cs = some g) :
    g ≠ [] ∧ ∀ c ∈ g, isQuote c = false := by
  unfold matchAt at h
  split at h
  · exact absurd h (by simp)
  · split at h
    · split at h
      · split at h
        · split at h
          · exact absurd h (by simp)
          · split at h
            · exact absurd h (by simp)
            · obtain rfl : _ = g := Option.some.inj h
              refine ⟨by assumption, ?_⟩
              intro c hc
              have := List.mem_takeWhile_imp hc
              simpa using this
        · exact absurd h (by simp)
      · exact absurd h (by simp)
    · exact absurd h (by simp)

/-- `findSome?` returns the value produced at the first index whose
entries before it all produce `none`. -/
theorem findSome?_take_first {α β : Type} (f : α → Option β) :
    ∀ (l : List α) (i : ℕ) (hi : i < l.length) (b : β),
      (∀ a ∈ l.take i, f a = none) → f (l.get ⟨i, hi⟩) = some b →
      l.findSome? f = some b := by
  intro l
  induction l with
  | nil => intro i hi; simp at hi
  | cons x xs ih =>
    intro i hi b hnone hget
    cases i with
    | zero =>
      rw [List.findSome?_cons_of_isSome _ (by simp_all)]
      exact hget
    | succ n =>
      have hx : f x = none := hnone x (by simp [List.take_succ_cons])
      rw [List.findSome?_cons_of_isNone _ (by simp [hx])]
      exact ih n (by simpa using hi) b
        (fun a ha => hnone a (by simp [List.take_succ_cons, ha])) hget

/-- Every element of `tailStarts t` is the suffix of `t` at a position
that directly follows a newline. -/
theorem mem_tailStarts {t s : List Char} (h : s ∈ tailStarts t) :
    ∃ k : ℕ, 0 < k ∧ t.get? (k - 1) = some '\n' ∧ s = t.drop k := by
  induction t with
  | nil => simp [tailStarts] at h
  | cons c cs ih =>
    by_cases hc : c = '\n'
    · subst hc
      rw [tailStarts, if_pos rfl] at h
      rcases List.mem_cons.mp h with rfl | h2
      · exact ⟨1, by decide, rfl, rfl⟩
      · obtain ⟨k, hk, hnl, hdrop⟩ := ih h2
        obtain ⟨m, rfl⟩ : ∃ m, k = m + 1 := ⟨k - 1, by omega⟩
        refine ⟨m + 2, by omega, ?_, by simpa using hdrop⟩
        simpa using hnl
    · rw [tailStarts, if_neg hc] at h
      obtain ⟨k, hk, hnl, hdrop⟩ := ih h
      obtain ⟨m, rfl⟩ : ∃ m, k = m + 1 := ⟨k - 1, by omega⟩
      refine ⟨m + 2, by omega, ?_, by simpa using hdrop⟩
      simpa using hnl

/-- If the matcher succeeds on `suffix`, the newline scan of
`p ++ '\n' :: suffix` finds some match. -/
theorem searchFromNewlines_append (p suffix v : List Char)
    (h : matchAt suffix = some v) :
    ∃ g, searchFromNewlines (p ++ '\n' :: suffix) = some g := by
  induction p with
  | nil =>
    exact ⟨v, by simp [searchFromNewlines, h]⟩
  | cons c p ih =>
    by_cases hc : c = '\n'
    · subst hc
      rw [List.cons_append, searchFromNewlines, if_pos rfl]
      cases hm : matchAt (p ++ '\n' :: suffix) with
      | some g => exact ⟨g, rfl⟩
      | none => exact ih
    · rw [List.cons_append, searchFromNewlines, if_neg hc]
      exact ih

/-- If the matcher succeeds on `suffix` and `suffix` sits at a line start
(at the head of the text or right after a newline), the whole search
finds some match. -/
theorem reSearch_append (pre suffix v : List Char)
    (hpre : pre = [] ∨ ∃ p, pre = p ++ ['\n'])
    (h : matchAt suffix = some v) :
    ∃ g, reSearch (pre ++ suffix) = some g := by
  rcases hpre with rfl | ⟨p, rfl⟩
  · exact ⟨v, by simp [reSearch, h]⟩
  · rw [List.append_assoc, List.singleton_append]
    unfold reSearch
    cases hm : matchAt (p ++ '\n' :: suffix) with
    | some g => exact ⟨g, rfl⟩
    | none => exact searchFromNewlines_append p suffix v h

/-- Claim C3: when the metadata registry reports "not found" and the
manifest contains, at a line start, a line of the form
`version = [quote]value[quote]` (whitespace around `=` tolerated, the
value nonempty and quote-free), the search finds a match and
`get_version()` returns exactly the captured value of that (first)
match. -/
theorem manifest_version_line_found (env : Env)
    (pre ws1 ws2 v rest : List Char) (q1 q2 : Char)
    (hreg : env.registry "NekoBot" = none)
    (hman : env.manifest
      = some (pre ++ (versionLit ++ (ws1 ++ '=' :: (ws2 ++ q1 :: (v ++ q2 :: rest))))))
    (hpre : pre = [] ∨ ∃ p, pre = p ++ ['\n'])
    (hws1 : ∀ c ∈ ws1, isPySpace c = true) (hws2 : ∀ c ∈ ws2, isPySpace c = true)
    (hq1 : isQuote q1 = true) (hq2 : isQuote q2 = true)
    (hv : v ≠ []) (hvq : ∀ c ∈ v, isQuote c = false) :
    ∃ g, reSearch (pre ++ (versionLit ++ (ws1 ++ '=' :: (ws2 ++ q1 :: (v ++ q2 :: rest)))))
        = some g ∧
      get_version env = String.mk g := by
  have hm : matchAt (versionLit ++ (ws1 ++ '=' :: (ws2 ++ q1 :: (v ++ q2 :: rest)))) = some v :=
    matchAt_found ws1 ws2 v rest q1 q2 hws1 hws2 hq1 hq2 hv hvq
  obtain ⟨g, hg⟩ := reSearch_append pre _ v hpre hm
  refine ⟨g, hg, ?_⟩
  simp [get_version, __version__, hreg, hman, readVersionFromPyproject, hg]

/-- Witness for C3: a manifest whose single line is
`version = "1.2.3"` yields `"1.2.3"`. -/
theorem manifest_version_line_found_witness :
    get_version ⟨fun _ => none, some ("version = \"1.2.3\"").data⟩ = "1.2.3" := by
  obtain ⟨g, hg, hv⟩ :=
    manifest_version_line_found
      ⟨fun _ => none, some ("version = \"1.2.3\"").data⟩
      [] [' '] [' '] ['1', '.', '2', '.', '3'] [] '"' '"'
      rfl (by decide) (Or.inl rfl) (by decide) (by decide) (by decide) (by decide)
      (by decide) (by decide)
  rw [hv]
  have : g = ['1', '.', '2', '.', '3'] := by
    have h2 : reSearch ([] ++ (versionLit ++ ([' '] ++ '=' ::
        ([' '] ++ '"' :: (['1', '.', '2', '.', '3'] ++ '"' :: [])))))
        = some ['1', '.', '2', '.', '3'] := by decide
    rw [hg] at h2
    exact Option.some.inj h2
  rw [this]

/-- Claim C4: when the metadata registry reports "not found" and the
manifest file is absent, or present but with no anchored match at any
line start, `get_version()` returns the literal `"0.0.0"`. -/
theorem fallback_default (env : Env)
    (hreg : env.registry "NekoBot" = none)
    (hman : env.manifest = none ∨
      ∃ t, env.manifest = some t ∧ ∀ s ∈ lineStarts t, matchAt s = none) :
    get_version env = "0.0.0" := by
  rcases hman with hman | ⟨t, hman, hnone⟩
  · simp [get_version, __version__, hreg, hman, readVersionFromPyproject]
  · have hs : reSearch t = none := by
      rw [reSearch_eq_findSome]
      exact List.findSome?_eq_none_iff.mpr hnone
    simp [get_version, __version__, hreg, hman, readVersionFromPyproject, hs]

/-- Witness for C4: both an absent manifest and a manifest with no
matching line yield `"0.0.0"`. -/
theorem fallback_default_witness :
    get_version ⟨fun _ => none, none⟩ = "0.0.0" ∧
    get_version ⟨fun _ => none, some ("name = \"NekoBot\"").data⟩ = "0.0.0" :=
  ⟨fallback_default _ rfl (Or.inl rfl),
   fallback_default _ rfl (Or.inr ⟨_, rfl, by decide⟩)⟩

/-- Claim C5: when every position of the manifest at which the anchored
version pattern matches is mid-line (neither the start of the text nor a
position right after a newline), the search matches nothing and
`get_version()` (with metadata absent) returns `"0.0.0"`. -/
theorem version_midline_no_match (env : Env) (t : List Char)
    (hreg : env.registry "NekoBot" = none) (hman : env.manifest = some t)
    (hmid : ∀ (k : ℕ) (g : List Char), matchAt (t.drop k) = some g →
      ¬(k = 0 ∨ t.get? (k - 1) = some '\n')) :
    reSearch t = none ∧ get_version env = "0.0.0" := by
  have hall : ∀ s ∈ lineStarts t, matchAt s = none := by
    intro s hs
    rcases List.mem_cons.mp hs with rfl | hs2
    · cases hm : matchAt s with
      | none => rfl
      | some g => exact absurd (Or.inl rfl) (hmid 0 g (by simpa using hm))
    · obtain ⟨k, hk, hnl, rfl⟩ := mem_tailStarts hs2
      cases hm : matchAt (t.drop k) with
      | none => rfl
      | some g => exact absurd (Or.inr hnl) (hmid k g hm)
  have hs : reSearch t = none := by
    rw [reSearch_eq_findSome]
    exact List.findSome?_eq_none_iff.mpr hall
  exact ⟨hs, by simp [get_version, __version__, hreg, hman, readVersionFromPyproject, hs]⟩

/-- Witness for C5: the only version-like text sits mid-line, so the
result is `"0.0.0"`. -/
theorem version_midline_no_match_witness :
    reSearch ("x version = \"9\"").data = none ∧
    get_version ⟨fun _ => none, some ("x version = \"9\"").data⟩ = "0.0.0" := by
  apply version_midline_no_match _ _ rfl rfl
  intro k g h hcontra
  rcases hcontra with rfl | hnl
  · rw [List.drop_zero] at h
    have hnone : matchAt ("x version = \"9\"").data = none := by decide
    rw [hnone] at h
    exact Option.noConfusion h
  · have hmem : '\n' ∈ ("x version = \"9\"").data := List.get?_mem hnl
    exact absurd hmem (by decide)

/-- Claim C6: when two or more line starts of the manifest carry an
anchored match, the one at the first such line start wins:
`get_version()` (with metadata absent) returns its captured value. -/
theorem first_match_wins (env : Env) (t : List Char) (i j : ℕ)
    (hi : i < (lineStarts t).length) (hj : j < (lineStarts t).length) (hij : i < j)
    (hreg : env.registry "NekoBot" = none) (hman : env.manifest = some t)
    (hbefore : ∀ s ∈ (lineStarts t).take i, matchAt s = none)
    (gi gj : List Char)
    (hgi : matchAt ((lineStarts t).get ⟨i, hi⟩) = some gi)
    (hgj : matchAt ((lineStarts t).get ⟨j, hj⟩) = some gj) :
    get_version env = String.mk gi := by
  have hs : reSearch t = some gi := by
    rw [reSearch_eq_findSome]
    exact findSome?_take_first matchAt (lineStarts t) i hi gi hbefore hgi
  simp [get_version, __version__, hreg, hman, readVersionFromPyproject, hs]

/-- Witness for C6: two matching lines `version = "1.0"` and
`version = "2.0"`; the first one wins. -/
theorem first_match_wins_witness :
    get_version ⟨fun _ => none, some ("version = \"1.0\"\nversion = \"2.0\"\n").data⟩
      = "1.0" := by
  apply first_match_wins _ _ 0 1 (by decide) (by decide) (by decide) rfl rfl
    (by simp) ['1', '.', '0'] ['2', '.', '0'] (by decide) (by decide)

/-- Claim C9: the pattern does not force the two quote delimiters to
agree: a line using an opening double quote and a closing single quote
(or vice versa) still matches, and the enclosed value is returned. -/
theorem mismatched_quotes_match (env : Env)
    (ws1 ws2 v rest : List Char) (q1 q2 : Char)
    (hreg : env.registry "NekoBot" = none)
    (hman : env.manifest
      = some (versionLit ++ (ws1 ++ '=' :: (ws2 ++ q1 :: (v ++ q2 :: rest)))))
    (hws1 : ∀ c ∈ ws1, isPySpace c = true) (hws2 : ∀ c ∈ ws2, isPySpace c = true)
    (hq1 : isQuote q1 = true) (hq2 : isQuote q2 = true) (hne : q1 ≠ q2)
    (hv : v ≠ []) (hvq : ∀ c ∈ v, isQuote c = false) :
    reSearch (versionLit ++ (ws1 ++ '=' :: (ws2 ++ q1 :: (v ++ q2 :: rest)))) = some v ∧
    get_version env = String.mk v := by
  have hm := matchAt_found ws1 ws2 v rest q1 q2 hws1 hws2 hq1 hq2 hv hvq
  have hs : reSearch (versionLit ++ (ws1 ++ '=' :: (ws2 ++ q1 :: (v ++ q2 :: rest))))
      = some v := by
    unfold reSearch
    rw [hm]
  exact ⟨hs, by simp [get_version, __version__, hreg, hman, readVersionFromPyproject, hs]⟩

/-- Witness for C9: `version = "1.2.3'` (opening double quote, closing
single quote) still yields `"1.2.3"`. -/
theorem mismatched_quotes_match_witness :
    get_version ⟨fun _ => none, some (("version = \"1.2.3").data ++ ['\''])⟩ = "1.2.3" := by
  have h := mismatched_quotes_match
    ⟨fun _ => none, some (("version = \"1.2.3").data ++ ['\''])⟩
    [' '] [' '] ['1', '.', '2', '.', '3'] [] '"' '\''
    rfl (by decide) (by decide) (by decide) (by decide) (by decide) (by decide)
    (by decide) (by decide)
  exact h.2

/-- Claim C10: for every manifest state, `_read_version_from_pyproject`
returns a nonempty string that contains no quote character; in
particular the line `version = ""` (empty quoted value) does not match,
so it yields `"0.0.0"`. -/
theorem read_version_invariant :
    (∀ m : Option (List Char), readVersionFromPyproject m ≠ "" ∧
      ∀ c ∈ (readVersionFromPyproject m).data, isQuote c = false) ∧
    readVersionFromPyproject (some ("version = \"\"").data) = "0.0.0" := by
  constructor
  · intro m
    cases m with
    | none => exact ⟨by decide, by decide⟩
    | some t =>
      cases hs : reSearch t with
      | none =>
        simp only [readVersionFromPyproject, hs]
        exact ⟨by decide, by decide⟩
      | some g =>
        obtain ⟨s, hmem, hms⟩ :=
          List.exists_of_findSome?_eq_some (reSearch_eq_findSome t ▸ hs)
        obtain ⟨hne, hq⟩ := matchAt_sound hms
        simp only [readVersionFromPyproject, hs]
        refine ⟨fun he => hne (congrArg String.data he), fun c hc => hq c hc⟩
  · decide

/-- Witness for C10: a well-formed manifest yields a nonempty value. -/
theorem read_version_invariant_witness :
    readVersionFromPyproject (some ("version = \"7.7\"").data) ≠ "" :=
  (read_version_invariant.1 (some ("version = \"7.7\"").data)).1

/-- Claim C8: the resolution's filesystem trace holds at most one
existence check, at most one read and no write, it leaves the
filesystem unchanged, and its result is the resolved version. -/
theorem resolution_effects (env : Env) :
    (resolveOps env).2.count FsOp.isFileCheck ≤ 1 ∧
    (resolveOps env).2.count FsOp.readText ≤ 1 ∧
    (∀ c, FsOp.writeText c ∉ (resolveOps env).2) ∧
    applyOps (resolveOps env).2 env.manifest = env.manifest ∧
    (resolveOps env).1 = get_version env := by
  obtain ⟨reg, man⟩ := env
  cases hr : reg "NekoBot" with
  | some v =>
    simp [resolveOps, hr, get_version, __version__, applyOps]
  | none =>
    cases man with
    | none =>
      simp [resolveOps, hr, readVersionOps, get_version, __version__,
        readVersionFromPyproject, applyOps, applyOp]
    | some t =>
      simp [resolveOps, hr, readVersionOps, get_version, __version__,
        readVersionFromPyproject, applyOps, applyOp]

/-- Witness for C8: with no registry entry and no manifest, the trace
leaves the (absent) manifest unchanged. -/
theorem resolution_effects_witness :
    applyOps (resolveOps ⟨fun _ => none, none⟩).2 (none : Option (List Char)) = none :=
  (resolution_effects ⟨fun _ => none, none⟩).2.2.2.1

end NekoBot
